import Mathlib

/-!
# Verification of pi-celery-app against its specification

Shallow embedding of the three source files of `Matey42/pi-celery-app`
(`api/app.py`, `api/tasks.py`, `api/celery_config.py`) and proofs of the
spec claims about them.

Conventions of the embedding:
* Python `float` arithmetic on the values that appear here (progress
  fractions, the `n / 14.181647` term count, the Buffon estimate) is
  embedded as exact rational arithmetic over `ℚ`.  For the one place where
  rounding could in principle change an integer result — `math.ceil(n /
  14.181647)` — the distance from `n / 14.181647` to the nearest integer is
  at least `1 / 14181647 ≈ 7.1e-8` for all integers `1 ≤ n ≤ 10000`
  (since `14181647` shares no factor with `10^6` and exceeds `10^10 / 14181647`),
  while the accumulated double-rounding error is below `2e-13`, so the
  float computation and the exact rational computation agree.
* Python `int` is `ℤ` (or `ℕ` where the source value is provably
  non-negative); the dynamic `isinstance(x, int)` guards are embedded with
  the sum type `PyArg` of "an integer" and "anything else".
* Raised exceptions are `Except`/`Option` error values.
* The Celery result backend is an abstract map from task ids to recorded
  task states; per Celery's documented behaviour, a task id with no record
  in the backend is reported as `PENDING`.
-/

namespace PiCelery

/-! ## Data model: Celery task states and the HTTP layer (`api/app.py`) -/

/-- A Python argument as seen by a Celery task after JSON deserialisation:
either an `int` or some non-`int` value.  Embeds the dynamic
`isinstance(x, int)` guardrails of `api/tasks.py`. -/
inductive PyArg where
  | int (i : ℤ)
  | other
  deriving DecidableEq, Repr

/-- The state of one task as recorded in the Celery result backend.
`progressMeta m` is the custom `PROGRESS` state written by
`self.update_state(state="PROGRESS", meta={"progress": p})`; `m = none`
embeds a meta dict without a `"progress"` key (so `info.get("progress", 0.0)`
falls back to its default). `failure exc` records a failed task together
with its exception rendered as a short message string (`str(result.result)`);
`none` embeds a falsy/absent exception object. -/
inductive CeleryState where
  | pending
  | started
  | progressMeta (meta : Option ℚ)
  | success (value : String)
  | failure (exc : Option String)
  deriving DecidableEq, Repr

/-- The result backend: a map from task ids to recorded states.
`none` means the backend holds no record for that id. -/
def Backend : Type := String → Option CeleryState

/-- `AsyncResult(task_id, app=celery_app).state`, embedded per Celery's
documented backend semantics: an id with no record is reported `PENDING`. -/
def asyncResultState (backend : Backend) (task_id : String) : CeleryState :=
  (backend task_id).getD .pending

/-- The `ProgressResponse` pydantic model of `api/app.py`. -/
structure ProgressResponse where
  state : String
  progress : ℚ
  result : Option String
  deriving DecidableEq, Repr

/-- The `HTTPException` raised by `check_progress` for a failed task:
status code plus the `detail={"task_id": ..., "error": ...}` payload. -/
structure HTTPError where
  status_code : ℕ
  task_id : String
  error : String
  deriving DecidableEq, Repr

/-- The `/check_progress` endpoint (`api/app.py`, lines 75–91), embedded as a
function of the backend contents.  Mirrors the source branch for branch:
`result.successful()` ⇒ `FINISHED` with progress 1.0 and the result string;
`result.failed()` ⇒ `HTTPException(500, {task_id, error})` with
`err = str(result.result) if result.result else "Task failed"`;
otherwise ⇒ `PROGRESS` with `info.get("progress", 0.0)` clamped by
`max(0.0, min(1.0, progress))` and `result=None`. -/
def check_progress (backend : Backend) (task_id : String) :
    Except HTTPError ProgressResponse :=
  match asyncResultState backend task_id with
  | .success v => .ok ⟨"FINISHED", 1, some v⟩
  | .failure exc => .error ⟨500, task_id, exc.getD "Task failed"⟩
  | .progressMeta meta =>
      let progress := meta.getD 0
      .ok ⟨"PROGRESS", max 0 (min 1 progress), none⟩
  | .pending => .ok ⟨"PROGRESS", max 0 (min 1 ((0 : ℚ))), none⟩
  | .started => .ok ⟨"PROGRESS", max 0 (min 1 ((0 : ℚ))), none⟩

/-- The backend with no records at all. -/
def emptyBackend : Backend := fun _ => none

/-- A backend holding exactly one record. -/
def singleBackend (id : String) (st : CeleryState) : Backend :=
  fun i => if i = id then some st else none

/-! ## The dispatching endpoint (`api/app.py`, lines 52–67) -/

/-- `throws = max(100, min(20_000_000, int(n) * 1000))` from
`calculate_pi_endpoint` (`api/app.py`, line 63). -/
def derive_throws (n : ℤ) : ℤ :=
  max 100 (min 20000000 (n * 1000))

/-! ## Series estimator (`calculate_pi_chudnovsky`, `api/tasks.py` 15–60) -/

/-- `digits_per_term = 14.181647` (`api/tasks.py`, line 32), as the exact
decimal value of that float literal's source text. -/
def digits_per_term : ℚ := 14181647 / 1000000

/-- `terms = max(1, math.ceil(n / digits_per_term))` (`api/tasks.py`, line 33). -/
def chudnovsky_terms (n : ℕ) : ℕ :=
  max 1 ⌈(n : ℚ) / digits_per_term⌉₊

/-- Guardrails of `calculate_pi_chudnovsky` (`api/tasks.py`, lines 23–29),
in source order; `some msg` embeds `raise ValueError(msg)`. -/
def chudnovsky_validate (n : PyArg) : Option String :=
  match n with
  | .other => some "n must be an integer"
  | .int i =>
      if i < 1 then some "n must be >= 1"
      else if i > 10000 then some "n is too large (max 10000)"
      else none

/-- The sequence of progress values reported by `calculate_pi_chudnovsky`
via `self.update_state` (`api/tasks.py`, lines 50–53): for `k` in
`range(terms)`, report `(k + 1) / terms`. -/
def chudnovsky_progress (n : ℕ) : List ℚ :=
  (List.range (chudnovsky_terms n)).map
    (fun (k : ℕ) => ((k : ℚ) + 1) / (chudnovsky_terms n))

/-! ## Sampling estimator (`calculate_pi_buffon`, `api/tasks.py` 63–113) -/

/-- Guardrails of `calculate_pi_buffon` (`api/tasks.py`, lines 74–84), in
source order (the `throws` checks come first). -/
def buffon_validate (n throws : PyArg) : Option String :=
  match throws with
  | .other => some "throws must be an integer"
  | .int t =>
      if t < 100 then some "throws must be >= 100"
      else if t > 20000000 then some "throws is too large (max 20000000)"
      else
        match n with
        | .other => some "n must be an integer"
        | .int i => if i < 1 then some "n must be >= 1" else none

/-- `batch = min(50_000, max(1_000, throws // 100))` (`api/tasks.py`, line 88). -/
def buffon_batch (throws : ℕ) : ℕ :=
  min 50000 (max 1000 (throws / 100))

/-- The `while completed < throws` loop of `calculate_pi_buffon`
(`api/tasks.py`, lines 94–104), recorded as the list of batch sizes
`curr = min(batch, throws - completed)` it processes, in order.  The loop
variable `completed` advances by `curr` each iteration; `fuel` is an upper
bound on the iteration count used to make the recursion structural (any
`fuel ≥ throws - completed` is enough once `batch ≥ 1`, proved below). -/
def buffon_loop (fuel batch throws completed : ℕ) : List ℕ :=
  match fuel with
  | 0 => []
  | fuel + 1 =>
      if completed < throws then
        let curr := min batch (throws - completed)
        curr :: buffon_loop fuel batch throws (completed + curr)
      else []

/-- The batch sizes processed by `calculate_pi_buffon` for a given `throws`. -/
def buffon_batches (throws : ℕ) : List ℕ :=
  buffon_loop throws (buffon_batch throws) throws 0

/-- Running totals of `completed` after each batch (`completed += curr`). -/
def running_totals : List ℕ → ℕ → List ℕ
  | [], _ => []
  | b :: bs, acc => (acc + b) :: running_totals bs (acc + b)

/-- The sequence of progress values reported by `calculate_pi_buffon` via
`self.update_state` (`api/tasks.py`, line 104): `completed / throws` after
each batch. -/
def buffon_progress (throws : ℕ) : List ℚ :=
  (running_totals (buffon_batches throws) 0).map
    (fun (c : ℕ) => (c : ℚ) / throws)

/-! ### Fixed-point formatting (`f"{pi_est:.{n}f}"`, `api/tasks.py` line 113)

Python's fixed-point float formatting rounds the value to `n` digits after
the decimal point and prints every one of those digits (zero-padded), with
the integer part in full and no scientific notation.  We embed it for the
non-negative rationals that occur here; ties are immaterial to the claims
proved about it. -/

/-- The character for decimal digit `d % 10`. -/
def digitChar (d : ℕ) : Char := Char.ofNat (48 + d % 10)

/-- Decimal digit characters of a natural number, most significant first
(always at least one digit, like Python's integer formatting). -/
def intChars (m : ℕ) : List Char :=
  if h : m < 10 then [digitChar m]
  else intChars (m / 10) ++ [digitChar (m % 10)]
  termination_by m
  decreasing_by
    exact Nat.div_lt_self (lt_of_lt_of_le (by norm_num) (le_of_not_lt h)) (by norm_num)

/-- The `n` digit characters after the decimal point for a scaled value `m`
(the rounded value times `10 ^ n`), most significant first, zero-padded. -/
def fracChars (m n : ℕ) : List Char :=
  (List.range n).map (fun i => digitChar (m / 10 ^ (n - 1 - i)))

/-- `f"{q:.{n}f}"` for a non-negative rational `q`: round `q` to `n` decimal
places, then print integer part, `'.'`, and exactly `n` fractional digits
(for `n = 0` Python prints no decimal point). -/
def format_fixed (q : ℚ) (n : ℕ) : String :=
  let m : ℕ := (⌊q * 10 ^ n + 1 / 2⌋).toNat
  if n = 0 then ⟨intChars m⟩
  else ⟨intChars (m / 10 ^ n) ++ '.' :: fracChars (m % 10 ^ n) n⟩

/-- Number of characters after the last `'.'` of a string, `0` if it has no
`'.'` — the "digits after the decimal point" of a fixed-point literal. -/
def digitsAfterPoint (s : String) : ℕ :=
  if '.' ∈ s.data then (s.data.reverse.takeWhile (fun c => c ≠ '.')).length
  else 0

/-- The tail of `calculate_pi_buffon` after the sampling loop
(`api/tasks.py`, lines 106–113), as a function of the accumulated `hits`:
`p_hat = hits / throws`; raise `ValueError` if `p_hat == 0`; otherwise
return `f"{2.0 / p_hat:.{n}f}"`. -/
def buffon_result (n throws hits : ℕ) : Except String String :=
  let p_hat : ℚ := (hits : ℚ) / (throws : ℚ)
  if p_hat = 0 then
    .error "No hits observed; increase 'throws' for a meaningful estimate"
  else
    .ok (format_fixed (2 / p_hat) n)

/-- `calculate_pi_buffon` end to end, abstracting the random sampling by the
total `hits` it produces: guardrails first, then the loop (whose reported
progress is `buffon_progress`), then the estimate/format stage. -/
def calculate_pi_buffon (n throws : PyArg) (hits : ℕ) : Except String String :=
  match buffon_validate n throws with
  | some msg => .error msg
  | none =>
      match n, throws with
      | .int ni, .int ti => buffon_result ni.toNat ti.toNat hits
      | _, _ => .error "unreachable: buffon_validate accepts integers only"

/-! ## Output formatting of the series estimator (`api/tasks.py` line 58)

`pi_str = nstr(pi_estimate, n, strip_zeros=False)` calls `mpmath.nstr`,
whose contract is to format its argument with `n` **significant digits**
(not `n` digits after the decimal point): for a value in `[1, 10)` such as
a π estimate, the output has one digit before the decimal point and
`max 1 (n - 1)` digits after it (mpmath always prints at least one
fractional digit, e.g. `nstr(x, 1) = "3.0"`). -/

/-- Number of digits after the decimal point in
`nstr(x, n, strip_zeros=False)` for `x ∈ [1, 10)`, per the mpmath contract
above (modelled from the mpmath library documentation, since the library
is outside this repository). -/
def nstr_digits_after_point (n : ℕ) : ℕ := max 1 (n - 1)

/-- Digits after the decimal point in the string returned by
`calculate_pi_chudnovsky` for a valid `n` (the π estimate lies in `[1,10)`). -/
def chudnovsky_output_decimals (n : ℕ) : ℕ := nstr_digits_after_point n

/-! ## Helper lemmas -/

/-- `check_progress` on an id the backend does not know returns the generic
in-progress response. -/
theorem check_progress_unknown (backend : Backend) (task_id : String)
    (h : backend task_id = none) :
    check_progress backend task_id = .ok ⟨"PROGRESS", 0, none⟩ := by
  unfold check_progress asyncResultState
  rw [h]
  simp

/-- A non-empty run of `buffon_loop` means the guard `completed < throws`
held on entry. -/
theorem buffon_loop_ne_nil_imp (fuel batch throws completed : ℕ)
    (h : buffon_loop fuel batch throws completed ≠ []) :
    completed < throws := by
  by_contra hc
  cases fuel with
  | zero => exact h rfl
  | succ fuel =>
      unfold buffon_loop at h
      rw [if_neg hc] at h
      exact h rfl

/-- Main invariant of the sampling loop, by induction on the fuel: with a
positive batch size and enough fuel, the processed batch sizes are each in
`[1, batch]`, every batch but possibly the last is exactly `batch`, and
they sum to the work remaining on entry. -/
theorem buffon_loop_spec (batch throws : ℕ) (hb : 1 ≤ batch) :
    ∀ fuel completed, throws - completed ≤ fuel →
      (buffon_loop fuel batch throws completed).sum = throws - completed
        ∧ (∀ x ∈ buffon_loop fuel batch throws completed, 1 ≤ x ∧ x ≤ batch)
        ∧ (∀ x ∈ (buffon_loop fuel batch throws completed).dropLast,
            x = batch) := by
  intro fuel
  induction fuel with
  | zero =>
      intro completed hfuel
      refine ⟨?_, ?_, ?_⟩
      · show ([] : List ℕ).sum = throws - completed
        simp
        omega
      · intro x hx
        exact absurd hx (by simp [buffon_loop])
      · intro x hx
        exact absurd hx (by simp [buffon_loop])
  | succ fuel ih =>
      intro completed hfuel
      unfold buffon_loop
      by_cases hlt : completed < throws
      · rw [if_pos hlt]
        have hcurr1 : 1 ≤ min batch (throws - completed) := by omega
        have hcurrb : min batch (throws - completed) ≤ batch := min_le_left _ _
        have hcurrr : min batch (throws - completed) ≤ throws - completed :=
          min_le_right _ _
        have hrec := ih (completed + min batch (throws - completed)) (by omega)
        refine ⟨?_, ?_, ?_⟩
        · rw [List.sum_cons, hrec.1]
          omega
        · intro x hx
          rcases List.mem_cons.mp hx with rfl | hx
          · exact ⟨hcurr1, hcurrb⟩
          · exact hrec.2.1 x hx
        · intro x hx
          dsimp only at hx
          by_cases htail :
              buffon_loop fuel batch throws
                (completed + min batch (throws - completed)) = []
          · rw [htail] at hx
            exact absurd hx (by simp)
          · rw [List.dropLast_cons_of_ne_nil htail] at hx
            rcases List.mem_cons.mp hx with rfl | hx
            · have := buffon_loop_ne_nil_imp _ _ _ _ htail
              omega
            · exact hrec.2.2 x hx
      · rw [if_neg hlt]
        refine ⟨by simp; omega, ?_, ?_⟩
        · intro x hx
          exact absurd hx (by simp)
        · intro x hx
          exact absurd hx (by simp)

/-- The clamped batch size is always positive. -/
theorem buffon_batch_pos (throws : ℕ) : 1 ≤ buffon_batch throws := by
  unfold buffon_batch
  omega

/-- For positive `throws` the loop runs at least one batch. -/
theorem buffon_batches_ne_nil (throws : ℕ) (h : 0 < throws) :
    buffon_batches throws ≠ [] := by
  unfold buffon_batches
  obtain ⟨m, rfl⟩ : ∃ m, throws = m + 1 := ⟨throws - 1, by omega⟩
  unfold buffon_loop
  rw [if_pos h]
  exact List.cons_ne_nil _ _

/-- The last running total of a non-empty batch list is the starting value
plus the total of all batches. -/
theorem running_totals_getLast? (l : List ℕ) (hl : l ≠ []) (acc : ℕ) :
    (running_totals l acc).getLast? = some (acc + l.sum) := by
  induction l generalizing acc with
  | nil => exact absurd rfl hl
  | cons b bs ih =>
      cases bs with
      | nil => simp [running_totals]
      | cons c cs =>
          show ((acc + b) :: running_totals (c :: cs) (acc + b)).getLast?
            = some (acc + (b :: c :: cs).sum)
          have h2 : running_totals (c :: cs) (acc + b)
              = (acc + b + c) :: running_totals cs (acc + b + c) := rfl
          rw [h2, List.getLast?_cons_cons, ← h2,
            ih (List.cons_ne_nil _ _) (acc + b)]
          congr 1
          simp only [List.sum_cons]
          omega

/-- A digit character is never the decimal point. -/
theorem digitChar_ne_dot (d : ℕ) : digitChar d ≠ '.' := by
  unfold digitChar
  have hd : d % 10 < 10 := Nat.mod_lt _ (by norm_num)
  set r := d % 10 with hr
  interval_cases r <;> decide

/-- `fracChars` always produces exactly `n` characters. -/
theorem fracChars_length (m n : ℕ) : (fracChars m n).length = n := by
  unfold fracChars
  rw [List.length_map, List.length_range]

/-- Every character `fracChars` produces is a digit, never `'.'`. -/
theorem fracChars_ne_dot (m n : ℕ) : ∀ c ∈ fracChars m n, c ≠ '.' := by
  intro c hc
  unfold fracChars at hc
  obtain ⟨i, _, rfl⟩ := List.mem_map.mp hc
  exact digitChar_ne_dot _

/-- `takeWhile` of a list whose first block satisfies the predicate and is
followed by a failing element returns exactly that first block. -/
theorem takeWhile_block (p : Char → Bool) (l1 l2 : List Char) (c : Char)
    (h1 : ∀ x ∈ l1, p x = true) (hc : p c = false) :
    (l1 ++ c :: l2).takeWhile p = l1 := by
  induction l1 with
  | nil => simp [List.takeWhile, hc]
  | cons a l ih =>
      have ha : p a = true := h1 a (List.mem_cons_self a l)
      show ((a :: (l ++ c :: l2)).takeWhile p) = a :: l
      rw [List.takeWhile_cons, ha]
      simp only [ih (fun x hx => h1 x (List.mem_cons_of_mem a hx))]
      simp

/-- The string produced by `format_fixed` with `1 ≤ n` has exactly `n`
characters after its (unique, final) decimal point. -/
theorem digitsAfterPoint_format_fixed (q : ℚ) (n : ℕ) (hn : 1 ≤ n) :
    digitsAfterPoint (format_fixed q n) = n := by
  unfold format_fixed
  rw [if_neg (by omega)]
  set m : ℕ := (⌊q * 10 ^ n + 1 / 2⌋).toNat with hm
  have hdata : (⟨intChars (m / 10 ^ n) ++ '.' :: fracChars (m % 10 ^ n) n⟩ :
      String).data = intChars (m / 10 ^ n) ++ '.' :: fracChars (m % 10 ^ n) n :=
    rfl
  unfold digitsAfterPoint
  rw [hdata, if_pos (by simp)]
  rw [List.reverse_append, List.reverse_cons, List.append_assoc,
    List.singleton_append]
  rw [takeWhile_block _ _ _ _ ?hall ?hdot]
  case hall =>
    intro x hx
    have hx' : x ∈ fracChars (m % 10 ^ n) n := List.mem_reverse.mp hx
    simpa using fracChars_ne_dot _ _ x hx'
  case hdot => simp
  rw [List.length_reverse, fracChars_length]

/-- With a positive `throws` and at least one hit, the estimate/format stage
returns the formatted estimate `2 / (hits / throws)`. -/
theorem buffon_result_ok (n throws hits : ℕ) (hth : 1 ≤ throws)
    (hh : 1 ≤ hits) :
    buffon_result n throws hits
      = .ok (format_fixed (2 / ((hits : ℚ) / (throws : ℚ))) n) := by
  unfold buffon_result
  dsimp only
  rw [if_neg]
  exact div_ne_zero (Nat.cast_ne_zero.mpr (by omega))
    (Nat.cast_ne_zero.mpr (by omega))

/-- For `1 ≤ n` the ceiling `⌈n / digits_per_term⌉₊` is already positive,
so the `max 1` of the source is a no-op. -/
theorem chudnovsky_terms_eq (n : ℕ) (hn : 1 ≤ n) :
    chudnovsky_terms n = ⌈(n : ℚ) / digits_per_term⌉₊ := by
  unfold chudnovsky_terms
  have hpos : 0 < ⌈(n : ℚ) / digits_per_term⌉₊ := by
    rw [Nat.ceil_pos]
    apply div_pos
    · exact_mod_cast hn
    · unfold digits_per_term
      norm_num
  omega

/-- The number of terms is positive. -/
theorem chudnovsky_terms_pos (n : ℕ) : 0 < chudnovsky_terms n :=
  lt_of_lt_of_le one_pos (le_max_left _ _)

end PiCelery

open PiCelery

/-- C2, counterexample: polling the unknown id `"ghost"` on an empty backend
returns the generic `PROGRESS, 0.0` response — byte-for-byte the same
response as polling the known, running task `"job1"` whose reported
progress is `0` — so the unknown-id response is not distinct from every
running response, and no "not found" signal exists. -/
theorem C2_counterexample :
    check_progress emptyBackend "ghost"
        = check_progress (singleBackend "job1" (.progressMeta (some 0))) "job1"
      ∧ check_progress emptyBackend "ghost"
        = .ok ⟨"PROGRESS", 0, none⟩ := by
  constructor
  · unfold check_progress asyncResultState emptyBackend singleBackend
    simp
  · exact check_progress_unknown _ _ rfl

/-- C2, amended: for every task id the backend does not know,
`check_progress` does not crash — it returns the generic in-progress
response (state `"PROGRESS"`, progress `0.0`, no result), which is the very
response a queued or just-started task receives; no distinct "not found"
signal is produced. -/
theorem C2_unknown_id_generic_response (backend : Backend) (task_id : String)
    (h : backend task_id = none) :
    check_progress backend task_id = .ok ⟨"PROGRESS", 0, none⟩
      ∧ check_progress backend task_id
        = check_progress (singleBackend task_id .pending) task_id := by
  refine ⟨check_progress_unknown backend task_id h, ?_⟩
  rw [check_progress_unknown backend task_id h]
  unfold check_progress asyncResultState singleBackend
  simp

/-- C2, witness for the amended theorem at the empty backend and id `"ghost"`. -/
theorem C2_unknown_id_generic_response_witness :
    check_progress emptyBackend "ghost" = .ok ⟨"PROGRESS", 0, none⟩
      ∧ check_progress emptyBackend "ghost"
        = check_progress (singleBackend "ghost" .pending) "ghost" :=
  C2_unknown_id_generic_response emptyBackend "ghost" rfl

/-- C7: for every `1 ≤ n ≤ 10000` accepted by `/calculate_pi`, the `throws`
value handed to `calculate_pi_buffon` is the deterministic function
`max 100 (min 20000000 (n * 1000))` of `n` alone, and it always lies in
`[100, 20000000]`. -/
theorem C7_derived_throws_bounded (n : ℤ) (h1 : 1 ≤ n) (h2 : n ≤ 10000) :
    derive_throws n = max 100 (min 20000000 (n * 1000))
      ∧ 100 ≤ derive_throws n ∧ derive_throws n ≤ 20000000 := by
  refine ⟨rfl, le_max_left _ _, ?_⟩
  exact max_le (by norm_num) (min_le_left _ _)

/-- C7, witness at `n = 7`. -/
theorem C7_derived_throws_bounded_witness :
    derive_throws 7 = max 100 (min 20000000 (7 * 1000))
      ∧ 100 ≤ derive_throws 7 ∧ derive_throws 7 ≤ 20000000 :=
  C7_derived_throws_bounded 7 (by norm_num) (by norm_num)

/-- C8: whenever the backend records the task as failed, `check_progress`
raises `HTTPException(500)` carrying the exception's short message string
(`str(result.result)`, or `"Task failed"` when no exception object is
recorded) — an error response that is never equal to any `.ok` response,
in particular never indistinguishable from "still running". -/
theorem C8_failure_distinct_error (backend : Backend) (task_id : String)
    (exc : Option String) (h : backend task_id = some (.failure exc)) :
    check_progress backend task_id = .error ⟨500, task_id, exc.getD "Task failed"⟩
      ∧ ∀ resp : ProgressResponse, check_progress backend task_id ≠ .ok resp := by
  have hcp : check_progress backend task_id
      = .error ⟨500, task_id, exc.getD "Task failed"⟩ := by
    unfold check_progress asyncResultState
    rw [h]
    rfl
  exact ⟨hcp, fun resp hok => by rw [hcp] at hok; exact Except.noConfusion hok⟩

/-- C8, witness at a backend holding one failed task with message
`"boom"`. -/
theorem C8_failure_distinct_error_witness :
    check_progress (singleBackend "j1" (.failure (some "boom"))) "j1"
        = .error ⟨500, "j1", "boom"⟩
      ∧ ∀ resp : ProgressResponse,
          check_progress (singleBackend "j1" (.failure (some "boom"))) "j1"
            ≠ .ok resp :=
  C8_failure_distinct_error (singleBackend "j1" (.failure (some "boom")))
    "j1" (some "boom") rfl

/-- C9: every `ProgressResponse` that `check_progress` returns has progress
in `[0, 1]`; a successfully finished task is always reported with progress
exactly `1`; a non-terminal task's stored meta progress is clamped into
`[0, 1]` before being returned, and defaults to `0` when absent. -/
theorem C9_progress_in_unit_interval (backend : Backend) (task_id : String)
    (resp : ProgressResponse)
    (h : check_progress backend task_id = .ok resp) :
    (0 ≤ resp.progress ∧ resp.progress ≤ 1)
      ∧ (∀ v, backend task_id = some (.success v) → resp.progress = 1)
      ∧ (∀ p, backend task_id = some (.progressMeta (some p)) →
          resp.progress = max 0 (min 1 p))
      ∧ (backend task_id = some (.progressMeta none) → resp.progress = 0) := by
  unfold check_progress asyncResultState at h
  rcases hb : backend task_id with _ | st
  · rw [hb] at h
    simp only [Option.getD] at h
    injection h with h
    subst h
    refine ⟨⟨le_max_left _ _, max_le (by norm_num) (min_le_left _ _)⟩, ?_, ?_, ?_⟩
      <;> intro a
      <;> simp_all
  · rw [hb] at h
    cases st with
    | pending =>
        injection h with h
        subst h
        refine ⟨⟨le_max_left _ _, max_le (by norm_num) (min_le_left _ _)⟩, ?_, ?_, ?_⟩
          <;> intro a
          <;> simp_all
    | started =>
        injection h with h
        subst h
        refine ⟨⟨le_max_left _ _, max_le (by norm_num) (min_le_left _ _)⟩, ?_, ?_, ?_⟩
          <;> intro a
          <;> simp_all
    | progressMeta meta =>
        injection h with h
        subst h
        refine ⟨⟨le_max_left _ _, max_le (by norm_num) (min_le_left _ _)⟩, ?_, ?_, ?_⟩
        · intro a ha
          simp_all
        · intro p hp
          have hm : meta = some p :=
            CeleryState.progressMeta.inj (Option.some.inj hp)
          subst hm
          rfl
        · intro hp
          have hm : meta = none :=
            CeleryState.progressMeta.inj (Option.some.inj hp)
          subst hm
          show max (0 : ℚ) (min 1 (Option.getD none 0)) = 0
          norm_num
    | success v =>
        injection h with h
        subst h
        refine ⟨⟨by norm_num, by norm_num⟩, ?_, ?_, ?_⟩
          <;> intro a
          <;> simp_all
    | failure exc => exact Except.noConfusion h

/-- C9, witness: a stored meta progress of `3/2` is clamped to `1`. -/
theorem C9_progress_in_unit_interval_witness :
    (0 ≤ (1 : ℚ) ∧ (1 : ℚ) ≤ 1)
      ∧ (∀ v, singleBackend "j" (.progressMeta (some (3/2))) "j"
            = some (.success v) → (1 : ℚ) = 1)
      ∧ (∀ p, singleBackend "j" (.progressMeta (some (3/2))) "j"
            = some (.progressMeta (some p)) → (1 : ℚ) = max 0 (min 1 p))
      ∧ (singleBackend "j" (.progressMeta (some (3/2))) "j"
            = some (.progressMeta none) → (1 : ℚ) = 0) :=
  C9_progress_in_unit_interval (singleBackend "j" (.progressMeta (some (3/2))))
    "j" ⟨"PROGRESS", 1, none⟩ (by unfold check_progress asyncResultState singleBackend; simp; norm_num)

/-- C3: for every `1 ≤ n ≤ 10000`, `calculate_pi_chudnovsky` reports
progress exactly `⌈n / 14.181647⌉` times, the `k`-th reported value
(`k` from 0) being `(k+1)/terms`; hence the sequence is non-decreasing
and its final value is exactly `1.0`. -/
theorem C3_chudnovsky_progress (n : ℕ) (h1 : 1 ≤ n) (h2 : n ≤ 10000) :
    (chudnovsky_progress n).length = ⌈(n : ℚ) / digits_per_term⌉₊
      ∧ (∀ k : Fin (chudnovsky_progress n).length,
          (chudnovsky_progress n).get k = ((k : ℚ) + 1) / (chudnovsky_terms n))
      ∧ List.Pairwise (· ≤ ·) (chudnovsky_progress n)
      ∧ (chudnovsky_progress n).getLast? = some 1 := by
  have hT : 0 < chudnovsky_terms n := chudnovsky_terms_pos n
  have hTQ : (0 : ℚ) < (chudnovsky_terms n : ℚ) := by exact_mod_cast hT
  have hlen : (chudnovsky_progress n).length = chudnovsky_terms n := by
    unfold chudnovsky_progress
    rw [List.length_map, List.length_range]
  refine ⟨?_, ?_, ?_, ?_⟩
  · rw [hlen, chudnovsky_terms_eq n h1]
  · intro k
    simp only [chudnovsky_progress, List.get_eq_getElem, List.getElem_map,
      List.getElem_range]
  · unfold chudnovsky_progress
    rw [List.pairwise_map]
    refine List.Pairwise.imp ?_ (List.pairwise_lt_range _)
    intro a b hab
    have hle : (a : ℚ) + 1 ≤ (b : ℚ) + 1 := by
      have : (a : ℚ) ≤ (b : ℚ) := by exact_mod_cast le_of_lt hab
      linarith
    exact (div_le_div_right hTQ).mpr hle
  · rw [List.getLast?_eq_getElem?, hlen]
    unfold chudnovsky_progress
    rw [List.getElem?_map, List.getElem?_range (Nat.sub_lt hT one_pos)]
    have hcast : ((chudnovsky_terms n - 1 : ℕ) : ℚ) + 1 = (chudnovsky_terms n : ℚ) := by
      have h1T : (1 : ℕ) ≤ chudnovsky_terms n := hT
      push_cast [h1T]
      ring
    show some ((((chudnovsky_terms n - 1 : ℕ) : ℚ) + 1) / (chudnovsky_terms n : ℚ))
      = some 1
    rw [hcast, div_self (ne_of_gt hTQ)]

/-- C3, witness at `n = 30` (three terms: 1/3, 2/3, 1). -/
theorem C3_chudnovsky_progress_witness :
    (chudnovsky_progress 30).length = ⌈(30 : ℚ) / digits_per_term⌉₊
      ∧ (∀ k : Fin (chudnovsky_progress 30).length,
          (chudnovsky_progress 30).get k = ((k : ℚ) + 1) / (chudnovsky_terms 30))
      ∧ List.Pairwise (· ≤ ·) (chudnovsky_progress 30)
      ∧ (chudnovsky_progress 30).getLast? = some 1 :=
  C3_chudnovsky_progress 30 (by norm_num) (by norm_num)

/-- C6: the guardrails of both tasks reject exactly the claimed inputs, and
rejection happens before any work: a failed validation makes
`calculate_pi_buffon` return that validation error whatever the sampling
would have produced (it is independent of `hits`). -/
theorem C6_validation_iff :
    (∀ n : PyArg, (chudnovsky_validate n).isSome
        ↔ n = .other ∨ ∃ i, n = .int i ∧ (i < 1 ∨ 10000 < i))
      ∧ (∀ n throws : PyArg, (buffon_validate n throws).isSome
        ↔ throws = .other ∨ (∃ t, throws = .int t ∧ (t < 100 ∨ 20000000 < t))
          ∨ n = .other ∨ ∃ i, n = .int i ∧ i < 1)
      ∧ (∀ n throws : PyArg, ∀ hits : ℕ, ∀ msg : String,
          buffon_validate n throws = some msg →
            calculate_pi_buffon n throws hits = .error msg) := by
  refine ⟨?_, ?_, ?_⟩
  · intro n
    cases n with
    | other => simp [chudnovsky_validate]
    | int i =>
        simp only [chudnovsky_validate]
        split_ifs with hlt hgt <;> simp <;> omega
  · intro n throws
    cases throws with
    | other => simp [buffon_validate]
    | int t =>
        cases n with
        | other =>
            simp only [buffon_validate]
            split_ifs with hlt hgt <;> simp
        | int i =>
            simp only [buffon_validate]
            split_ifs with hlt hgt hni <;> simp <;> omega
  · intro n throws hits msg hval
    unfold calculate_pi_buffon
    rw [hval]

/-- C6, witness: `n = 0` is rejected by the Buffon task with the `n`
validation message, independently of the sampling outcome. -/
theorem C6_validation_iff_witness :
    calculate_pi_buffon (.int 0) (.int 500) 42 = .error "n must be >= 1" :=
  C6_validation_iff.2.2 (.int 0) (.int 500) 42 "n must be >= 1" rfl

/-- C5: with a valid `throws`, the estimate/format stage of
`calculate_pi_buffon` raises the descriptive `ValueError` exactly when zero
hits were observed, and returns a result string exactly when at least one
hit was observed (in which case the finite value `2 / (hits/throws)` is
formatted). -/
theorem C5_zero_hits_error (n throws hits : ℕ) (hth : 100 ≤ throws) :
    (buffon_result n throws hits
        = .error "No hits observed; increase 'throws' for a meaningful estimate"
      ↔ hits = 0)
      ∧ (hits ≠ 0 →
          buffon_result n throws hits
            = .ok (format_fixed (2 / ((hits : ℚ) / (throws : ℚ))) n))
      ∧ ∀ s, buffon_result n throws hits = .ok s → hits ≠ 0 := by
  have hthQ : ((throws : ℚ)) ≠ 0 := by
    have : (0 : ℚ) < (throws : ℚ) := by exact_mod_cast lt_of_lt_of_le (by norm_num) hth
    exact ne_of_gt this
  have hzero : ((hits : ℚ) / (throws : ℚ) = 0) ↔ hits = 0 := by
    rw [div_eq_zero_iff]
    constructor
    · rintro (h | h)
      · exact_mod_cast h
      · exact absurd h hthQ
    · intro h
      left
      exact_mod_cast h
  constructor
  · unfold buffon_result
    dsimp only
    split_ifs with hp
    · simp [hzero.mp hp]
    · constructor
      · intro h
        simp at h
      · intro h
        exact absurd (hzero.mpr h) hp
  constructor
  · intro hne
    unfold buffon_result
    dsimp only
    split_ifs with hp
    · exact absurd (hzero.mp hp) hne
    · rfl
  · intro s hok hzero'
    subst hzero'
    unfold buffon_result at hok
    simp at hok

/-- C4: for every valid `100 ≤ throws ≤ 20000000`, `calculate_pi_buffon`
processes its throws in batches of size `clamp(throws/100, 1000, 50000)`
(every batch except possibly the last is exactly that size, and every batch
is between 1 and that size), the batch sizes sum exactly to `throws`, and
the final reported progress value `completed/throws` is exactly `1.0`. -/
theorem C4_buffon_batching (throws : ℕ) (h1 : 100 ≤ throws)
    (h2 : throws ≤ 20000000) :
    buffon_batch throws = min 50000 (max 1000 (throws / 100))
      ∧ (∀ b ∈ (buffon_batches throws).dropLast, b = buffon_batch throws)
      ∧ (∀ b ∈ buffon_batches throws, 1 ≤ b ∧ b ≤ buffon_batch throws)
      ∧ (buffon_batches throws).sum = throws
      ∧ (buffon_progress throws).getLast? = some 1 := by
  have hb : 1 ≤ buffon_batch throws := buffon_batch_pos throws
  have hspec := buffon_loop_spec (buffon_batch throws) throws hb throws 0
    (by omega)
  have hsum : (buffon_batches throws).sum = throws := by
    unfold buffon_batches
    rw [hspec.1]
    omega
  refine ⟨rfl, ?_, ?_, hsum, ?_⟩
  · exact fun b hbm => hspec.2.2 b hbm
  · exact fun b hbm => hspec.2.1 b hbm
  · unfold buffon_progress
    rw [List.getLast?_map,
      running_totals_getLast? _ (buffon_batches_ne_nil throws (by omega)) 0,
      hsum]
    show some (((0 + throws : ℕ) : ℚ) / (throws : ℚ)) = some 1
    rw [Nat.zero_add, div_self (Nat.cast_ne_zero.mpr (by omega))]

/-- C4, witness at `throws = 2500` (batches 1000, 1000, 500). -/
theorem C4_buffon_batching_witness :
    buffon_batch 2500 = min 50000 (max 1000 (2500 / 100))
      ∧ (∀ b ∈ (buffon_batches 2500).dropLast, b = buffon_batch 2500)
      ∧ (∀ b ∈ buffon_batches 2500, 1 ≤ b ∧ b ≤ buffon_batch 2500)
      ∧ (buffon_batches 2500).sum = 2500
      ∧ (buffon_progress 2500).getLast? = some 1 :=
  C4_buffon_batching 2500 (by norm_num) (by norm_num)

/-- C10: `calculate_pi_buffon` enforces no upper bound on `n`: for every
integer `n ≥ 1` — including values above the 10000 cap the Chudnovsky task
and the endpoint enforce — the guardrails accept `n`, and on success (any
valid `throws`, at least one hit) the task returns the estimate formatted
with exactly `n` digits after the decimal point. -/
theorem C10_buffon_no_upper_bound (n t : ℤ) (hn : 1 ≤ n)
    (ht1 : 100 ≤ t) (ht2 : t ≤ 20000000) (hits : ℕ) (hhits : 1 ≤ hits) :
    buffon_validate (.int n) (.int t) = none
      ∧ calculate_pi_buffon (.int n) (.int t) hits
          = .ok (format_fixed (2 / ((hits : ℚ) / (t.toNat : ℚ))) n.toNat)
      ∧ digitsAfterPoint
          (format_fixed (2 / ((hits : ℚ) / (t.toNat : ℚ))) n.toNat)
          = n.toNat := by
  have hval : buffon_validate (.int n) (.int t) = none := by
    show (if t < 100 then some "throws must be >= 100"
      else if t > 20000000 then some "throws is too large (max 20000000)"
      else if n < 1 then some "n must be >= 1" else none) = none
    rw [if_neg (by omega), if_neg (by omega), if_neg (by omega)]
  refine ⟨hval, ?_, digitsAfterPoint_format_fixed _ _ (by omega)⟩
  unfold calculate_pi_buffon
  rw [hval]
  show buffon_result n.toNat t.toNat hits = _
  exact buffon_result_ok n.toNat t.toNat hits (by omega) hhits

/-- C10, witness at `n = 20000` — twice the policy cap of 10000 — with
`throws = 200000` and one hit. -/
theorem C10_buffon_no_upper_bound_witness :
    buffon_validate (.int 20000) (.int 200000) = none
      ∧ calculate_pi_buffon (.int 20000) (.int 200000) 1
          = .ok (format_fixed (2 / ((1 : ℚ) / (((200000 : ℤ)).toNat : ℚ)))
              ((20000 : ℤ)).toNat)
      ∧ digitsAfterPoint
          (format_fixed (2 / ((1 : ℚ) / (((200000 : ℤ)).toNat : ℚ)))
            ((20000 : ℤ)).toNat)
          = ((20000 : ℤ)).toNat :=
  C10_buffon_no_upper_bound 20000 200000 (by norm_num) (by norm_num)
    (by norm_num) 1 (by norm_num)

/-- C1: evaluation of the code's formatting step at the failing input
`n = 10`.  `calculate_pi_chudnovsky` formats its estimate with
`nstr(pi_estimate, n, strip_zeros=False)`, which produces `n` significant
digits — for a value in `[1, 10)` that is only `n - 1 = 9` digits after the
decimal point, not the `n = 10` digits after the point that the claim (and
the function's own docstring) requires. -/
theorem C1_code_evaluation :
    chudnovsky_output_decimals 10 = 9 ∧ (9 : ℕ) ≠ 10
      ∧ chudnovsky_output_decimals 2 = 1 ∧ (1 : ℕ) ≠ 2 := by
  refine ⟨rfl, by norm_num, rfl, by norm_num⟩

/-- C5, witness at `hits = 0`, `throws = 200`, `n = 3`: the error is raised
and no result is returned. -/
theorem C5_zero_hits_error_witness :
    (buffon_result 3 200 0
        = .error "No hits observed; increase 'throws' for a meaningful estimate"
      ↔ (0 : ℕ) = 0)
      ∧ ((0 : ℕ) ≠ 0 →
          buffon_result 3 200 0
            = .ok (format_fixed (2 / (((0 : ℕ) : ℚ) / ((200 : ℕ) : ℚ))) 3))
      ∧ ∀ s, buffon_result 3 200 0 = .ok s → (0 : ℕ) ≠ 0 :=
  C5_zero_hits_error 3 200 0 (by decide)
